import Mathlib

/-!
Verification of the rename-data resolution and delivery pipeline of the
apex-explorer extension (src/background.js, src/content.js).

Strings are modelled as `List Char`; times (`Date.now()`, timestamps) as `Nat`
milliseconds.  Asynchronous platform calls that may reject are modelled by
explicit failure points threaded through the handlers.
-/

namespace Apex

/-- The characters stripped by `background.js` `buildFilename`:
`name.replace(/[<>:"\/\\|?*\x00-\x1f]/g, '')`. -/
def illegalChar (c : Char) : Bool :=
  c == '<' || c == '>' || c == ':' || c == '"' || c == '/' || c == '\\' ||
  c == '|' || c == '?' || c == '*' || decide (c.toNat ≤ 0x1f)

/-- The individual code points matched by JavaScript regex `\s` (WhiteSpace
and LineTerminator), besides the contiguous range U+2000-U+200A. -/
def wsCodes : List Nat :=
  [0x9, 0xa, 0xb, 0xc, 0xd, 0x20, 0xa0, 0x1680, 0x2028, 0x2029, 0x202f,
   0x205f, 0x3000, 0xfeff]

/-- The character class matched by JavaScript regex `\s`. -/
def jsWs (c : Char) : Bool :=
  wsCodes.contains c.toNat ||
  (decide (0x2000 ≤ c.toNat) && decide (c.toNat ≤ 0x200a))

/-- The character class `[\s.]` used by the trim step of `buildFilename`. -/
def wsDot (c : Char) : Bool := jsWs c || c == '.'

/-- ASCII decimal digit, the class matched by JavaScript regex `\d`. -/
def digitCh (c : Char) : Bool := decide ('0' ≤ c) && decide (c ≤ '9')

/-- The ten decimal digit characters. -/
def decDigits : List Char := ['0', '1', '2', '3', '4', '5', '6', '7', '8', '9']

/-- Digit character for a value below ten (defaulting to `'9'` above). -/
def digitOf (k : Nat) : Char :=
  if k = 0 then '0' else if k = 1 then '1' else if k = 2 then '2'
  else if k = 3 then '3' else if k = 4 then '4' else if k = 5 then '5'
  else if k = 6 then '6' else if k = 7 then '7' else if k = 8 then '8' else '9'

/-- Decimal digit list of `n` (empty for zero), most significant first. -/
def natDigits : Nat → List Char
  | 0 => []
  | n + 1 => natDigits ((n + 1) / 10) ++ [digitOf ((n + 1) % 10)]
decreasing_by exact Nat.div_lt_self (Nat.succ_pos n) (by omega)

/-- JavaScript number-to-string for a nonnegative integer, as used by
`'QBO_Document_' + Date.now()` and by `formatDate`. -/
def natChars (n : Nat) : List Char := if n = 0 then ['0'] else natDigits n

/-- JavaScript `String.prototype.replaceAll` with a literal pattern
(the `replaceAll('{num}', ...)` chain in `buildFilename`; replacement text
is inserted verbatim). -/
def replaceAll (pat repl : List Char) : List Char → List Char
  | [] => []
  | c :: rest =>
    if pat ≠ [] ∧ pat.isPrefixOf (c :: rest) then
      repl ++ replaceAll pat repl ((c :: rest).drop pat.length)
    else
      c :: replaceAll pat repl rest
termination_by l => l.length
decreasing_by
  · simp only [List.length_drop, List.length_cons]
    have : pat.length ≠ 0 := by
      intro h0
      exact (by assumption : pat ≠ [] ∧ _).1 (List.eq_nil_of_length_eq_zero h0)
    omega
  · simp

/-- JavaScript `String.prototype.replace` with a literal pattern: first
occurrence only (the `YYYY`/`MM`/`DD` replacements in `formatDate`). -/
def replaceFirst (pat repl : List Char) : List Char → List Char
  | [] => []
  | c :: rest =>
    if pat.isPrefixOf (c :: rest) then
      repl ++ (c :: rest).drop pat.length
    else
      c :: replaceFirst pat repl rest

/-- The current wall clock as read by `background.js`: calendar components for
`formatDate` (month already 1-based, matching `d.getMonth() + 1`) and the
epoch-milliseconds value returned by `Date.now()`. -/
structure Clock where
  year : Nat
  month : Nat
  day : Nat
  nowMs : Nat
deriving DecidableEq, Repr

/-- `String(x).padStart(2, '0')` for the month and day components. -/
def padTwo (n : Nat) : List Char :=
  if n < 10 then '0' :: natChars n else natChars n

/-- `background.js` `formatDate`: replace the first `YYYY`, then the first
`MM`, then the first `DD` in the date-format string. -/
def formatDate (fmt : List Char) (clk : Clock) : List Char :=
  replaceFirst "DD".data (padTwo clk.day)
    (replaceFirst "MM".data (padTwo clk.month)
      (replaceFirst "YYYY".data (natChars clk.year) fmt))

/-- The data argument of `buildFilename`: token values plus the date format
(each `undefined`/absent value appears as the empty string, mirroring
`data.num || ''`). -/
structure FData where
  num : List Char
  customer : List Char
  type : List Char
  dateFormat : List Char
deriving DecidableEq, Repr

/-- The token-substitution phase of `buildFilename`: the four `replaceAll`
calls, in source order, with `data.dateFormat || 'YYYY-MM-DD'` defaulting. -/
def substTokens (format : List Char) (d : FData) (clk : Clock) : List Char :=
  replaceAll "{date}".data
    (formatDate (if d.dateFormat = [] then "YYYY-MM-DD".data else d.dateFormat) clk)
    (replaceAll "{type}".data d.type
      (replaceAll "{customer}".data d.customer
        (replaceAll "{num}".data d.num format)))

/-- `name.replace(/[<>:"\/\\|?*\x00-\x1f]/g, '')`. -/
def stripIllegal (l : List Char) : List Char := l.filter (fun c => !illegalChar c)

/-- `name.replace(/\s{2,}/g, ' ')`: every maximal run of two or more
whitespace characters becomes a single space; lone whitespace characters are
kept as they are. -/
def collapseWs : List Char → List Char
  | [] => []
  | [c] => [c]
  | c1 :: c2 :: rest =>
    if jsWs c1 && jsWs c2 then collapseWs (' ' :: rest)
    else c1 :: collapseWs (c2 :: rest)
termination_by l => l.length
decreasing_by all_goals simp

/-- The dash-collapsing replace of `buildFilename` (pattern `-{3,}`, global,
replacement `--`): every maximal run of three or more dashes becomes exactly
two dashes. -/
def collapseDashes : List Char → List Char
  | [] => []
  | [c] => [c]
  | [c1, c2] => [c1, c2]
  | c1 :: c2 :: c3 :: rest =>
    if c1 == '-' && c2 == '-' && c3 == '-' then collapseDashes ('-' :: '-' :: rest)
    else c1 :: collapseDashes (c2 :: c3 :: rest)
termination_by l => l.length
decreasing_by all_goals simp

/-- Removal of trailing characters satisfying `p` (the `[\s.]+$` half of the
trim step). -/
def dropTrailing (p : Char → Bool) (l : List Char) : List Char :=
  (l.reverse.dropWhile p).reverse

/-- `name.replace(/^[\s.]+|[\s.]+$/g, '')`: strip leading and trailing
whitespace and dots. -/
def trimWsDots (l : List Char) : List Char :=
  dropTrailing wsDot (l.dropWhile wsDot)

/-- The sanitization pipeline of `buildFilename` after token substitution. -/
def sanitize (l : List Char) : List Char :=
  trimWsDots (collapseDashes (collapseWs (stripIllegal l)))

/-- The fallback name `'QBO_Document_' + Date.now()`. -/
def fallbackName (clk : Clock) : List Char :=
  "QBO_Document_".data ++ natChars clk.nowMs

/-- `background.js` `buildFilename`: substitute tokens, sanitize, and fall
back to a timestamped default when the result is empty. -/
def buildFilename (format : List Char) (d : FData) (clk : Clock) : List Char :=
  let name := sanitize (substTokens format d clk)
  if name = [] then fallbackName clk else name

/-- Two adjacent whitespace characters occur somewhere in the list. -/
def hasDoubleWs : List Char → Bool
  | c1 :: c2 :: rest => (jsWs c1 && jsWs c2) || hasDoubleWs (c2 :: rest)
  | _ => false

/-- Three adjacent dashes occur somewhere in the list. -/
def hasTripleDash : List Char → Bool
  | c1 :: c2 :: c3 :: rest =>
      (c1 == '-' && c2 == '-' && c3 == '-') || hasTripleDash (c2 :: c3 :: rest)
  | _ => false

/-! ## Session-store records and settings -/

/-- A rename-data record as stored in the session store (`pendingRename`,
`blobRenameData`, `currentTransaction` are all plain objects whose shapes
differ only in the optional `action` and `timestamp` fields, mirrored here
by `Option`). -/
structure RData where
  num : List Char
  customer : List Char
  type : List Char
  action : Option (List Char) := none
  timestamp : Option Nat := none
deriving DecidableEq, Repr

/-- The settings record consumed by the background handlers (the key set of
`DEFAULTS` in `background.js`). `showNotif` mirrors the dynamic
`showNotification` property of the object returned by the storage read:
`none` models JavaScript `undefined` (so the `typeof ... === 'boolean'`
test is `isSome`). -/
structure SettingsObj where
  enabled : Bool
  format : List Char
  dateFormat : List Char
  notifyMode : List Char
  showNotif : Option Bool := none
deriving DecidableEq, Repr

/-- The synced preference store underlying `chrome.storage.sync`: each key is
present or absent. -/
structure SyncStore where
  enabled : Option Bool
  format : Option (List Char)
  dateFormat : Option (List Char)
  notifyMode : Option (List Char)
  showNotif : Option Bool
deriving DecidableEq, Repr

/-- `chrome.storage.sync.get(DEFAULTS)`: returns exactly the keys of the
`DEFAULTS` object, with stored values where present and the default values
otherwise.  `showNotification` is not a key of `DEFAULTS`, so it is never part
of the returned object (Chrome's `StorageArea.get` with an object argument
returns only the requested keys); hence `showNotif := none`. -/
def syncGetDefaults (s : SyncStore) : SettingsObj :=
  { enabled := s.enabled.getD true
    format := s.format.getD "{num} - {customer}".data
    dateFormat := s.dateFormat.getD "YYYY-MM-DD".data
    notifyMode := s.notifyMode.getD "toast".data
    showNotif := none }

/-- `background.js` `getSettings`: read the settings with defaults and, if the
returned object carries a boolean `showNotification`, migrate it to
`notifyMode` and update the store.  Returns the settings object together with
the store as left behind. -/
def getSettingsRun (store : SyncStore) : SettingsObj × SyncStore :=
  let settings := syncGetDefaults store
  match settings.showNotif with
  | some b =>
      let nm := if b then "toast".data else "off".data
      ({ settings with notifyMode := nm },
       { store with showNotif := none, notifyMode := some nm })
  | none => (settings, store)

/-! ## Filename parsing and scope guard -/

/-- The alternation of the QBO filename regexes in `background.js`
(`Estimate|Invoice|Sales Receipt|Purchase Order|Credit Memo|Bill|Refund
Receipt`). -/
def qboTypes : List (List Char) :=
  ["Estimate".data, "Invoice".data, "Sales Receipt".data, "Purchase Order".data,
   "Credit Memo".data, "Bill".data, "Refund Receipt".data]

/-- Case-insensitive prefix test, modelling the regex `i` flag on the ASCII
type names. -/
def ciPrefixOf (pat s : List Char) : Bool :=
  (s.take pat.length).map Char.toLower == pat.map Char.toLower

/-- `background.js` `parseQboFilename`: match the original filename against
the anchored pattern `(Type)\s+(\d+)` case-insensitively and extract the type
(as written in the filename), the number, and an empty customer.  No type name
of the alternation is a case-insensitive prefix of another, so trying the
alternatives in order with a plain prefix test is equivalent to the regex
alternation.  The companion regex in `renameDownload` (`isQboFile`) differs
only in not capturing the digits, so `Option.isSome` of this function is its
truth value. -/
def parseQboFilename (filename : Option (List Char)) : Option RData :=
  match filename with
  | none => none
  | some s =>
    match qboTypes.find? (fun t => ciPrefixOf t s) with
    | none => none
    | some t =>
      if (s.drop t.length).takeWhile jsWs ≠ [] ∧
         ((s.drop t.length).dropWhile jsWs).takeWhile digitCh ≠ [] then
        some { num := ((s.drop t.length).dropWhile jsWs).takeWhile digitCh,
               customer := [], type := s.take t.length }
      else none

/-- `item.url?.startsWith('blob:https://qbo.intuit.com')`. -/
def isBlobUrl (url : List Char) : Bool :=
  "blob:https://qbo.intuit.com".data.isPrefixOf url

/-! ## Fallback-chain resolution (renameDownload, lines 95-130) -/

/-- Tier 1: `pendingRename && (Date.now() - pendingRename.timestamp < 15000)`.
A record without a timestamp is never fresh (`Date.now() - undefined` is `NaN`,
and every comparison with `NaN` is false). -/
def tier1 (pending : Option RData) (nowMs : Nat) : Option RData :=
  match pending with
  | some p =>
    match p.timestamp with
    | some ts => if nowMs - ts < 15000 then some p else none
    | none => none
  | none => none

/-- Tier 2: `blobRenameData`, consulted only for blob-origin items, fresh for
300000 ms. -/
def tier2 (blob : Option RData) (nowMs : Nat) (isBlob : Bool) : Option RData :=
  if isBlob then
    match blob with
    | some b =>
      match b.timestamp with
      | some ts => if nowMs - ts < 300000 then some b else none
      | none => none
    | none => none
  else none

/-- The four-tier fallback chain of `renameDownload`: fresh `pendingRename`,
then fresh `blobRenameData` (blob items only), then `currentTransaction`
(no age check), then a parse of the original filename. -/
def resolveDownloadData (pending blob current : Option RData) (nowMs : Nat)
    (isBlob : Bool) (filename : List Char) : Option RData :=
  match tier1 pending nowMs with
  | some d => some d
  | none =>
    match tier2 blob nowMs isBlob with
    | some d => some d
    | none =>
      match current with
      | some d => some d
      | none => parseQboFilename (some filename)

/-- Overwrite the `action` field of a rename record. -/
def setAction (p : RData) (a : Option (List Char)) : RData := { p with action := a }

/-! ## The save-intercept hook (onDeterminingFilename / renameDownload) -/

/-- A download item descriptor as passed to `onDeterminingFilename`. -/
structure Item where
  url : List Char
  filename : List Char
deriving DecidableEq, Repr

/-- The argument of one `suggest(...)` call. -/
structure Suggestion where
  filename : List Char
  conflictAction : Option (List Char) := none
deriving DecidableEq, Repr

/-- The awaited platform calls of `renameDownload` at which a rejection can
occur, plus the post-suggest cleanup step whose exception is caught in-line. -/
inductive FailPoint
  | atSettings
  | atPendingGet
  | atBlobGet
  | atCurrentGet
  | atCleanup
deriving DecidableEq, Repr

/-- The environment of one `renameDownload` invocation: the settings and
session-store contents it would read, the clock, and which awaited step (if
any) throws. -/
structure DlEnv where
  settings : SettingsObj
  pendingRename : Option RData
  blobRenameData : Option RData
  currentTransaction : Option RData
  clock : Clock
  failAt : Option FailPoint
deriving Repr

/-- The observable outcome of one `renameDownload` run: the `suggest` calls it
made, whether its promise rejected, and its session-store / notification side
effects. -/
structure RunResult where
  suggests : List Suggestion
  threw : Bool
  removedPending : Bool
  notified : Bool
deriving DecidableEq, Repr

/-- `background.js` `renameDownload`, step by step.  Each awaited platform
call first checks the environment's failure point (a rejection there aborts
the handler with no further effect); the conditional tiers only reach their
`get` when the source executes it.  The post-suggest cleanup is wrapped in
`try/catch`, so a throw there loses the cleanup effects but does not reject
the promise. -/
def renameDownloadRun (item : Item) (env : DlEnv) : RunResult :=
  if env.failAt = some .atSettings then ⟨[], true, false, false⟩ else
  if !env.settings.enabled then ⟨[⟨item.filename, none⟩], false, false, false⟩ else
  let isQboBlob := isBlobUrl item.url
  let isQboFile := (parseQboFilename (some item.filename)).isSome
  if !isQboBlob && !isQboFile then ⟨[⟨item.filename, none⟩], false, false, false⟩ else
  if env.failAt = some .atPendingGet then ⟨[], true, false, false⟩ else
  let nowMs := env.clock.nowMs
  let data1 := tier1 env.pendingRename nowMs
  if data1 = none ∧ isQboBlob = true ∧ env.failAt = some .atBlobGet then
    ⟨[], true, false, false⟩ else
  let data2 := match data1 with
    | some d => some d
    | none => tier2 env.blobRenameData nowMs isQboBlob
  if data2 = none ∧ env.failAt = some .atCurrentGet then ⟨[], true, false, false⟩ else
  match resolveDownloadData env.pendingRename env.blobRenameData
      env.currentTransaction nowMs isQboBlob item.filename with
  | none => ⟨[⟨item.filename, none⟩], false, false, false⟩
  | some d =>
    let fname := buildFilename env.settings.format
      ⟨d.num, d.customer, d.type, env.settings.dateFormat⟩ env.clock ++ ".pdf".data
    let s : Suggestion := ⟨fname, some "uniquify".data⟩
    if env.failAt = some .atCleanup then ⟨[s], false, false, false⟩
    else ⟨[s], false, env.pendingRename.isSome,
          env.settings.notifyMode ≠ "off".data⟩

/-- The top-level `onDeterminingFilename` listener:
`renameDownload(item, suggest).catch(() => suggest({filename: item.filename}))`.
A rejected run is answered by one more `suggest` with the original name. -/
def onDeterminingFilenameRun (item : Item) (env : DlEnv) : RunResult :=
  let r := renameDownloadRun item env
  if r.threw then
    { r with suggests := r.suggests ++ [⟨item.filename, none⟩], threw := false }
  else r

/-! ## The preview-tab-ready hook (handleBlobTab) -/

/-- Outcome of the opener-tab query of `handleBlobTab`: no opener tab id,
the `sendMessage` round trip rejecting (caught and logged), or a response
(which may itself be `null`). -/
inductive OpenerResult
  | noOpener
  | queryThrew
  | responded (r : Option RData)
deriving DecidableEq, Repr

/-- The environment of one `handleBlobTab` invocation. -/
structure BlobEnv where
  settings : SettingsObj
  pendingRename : Option RData
  currentTransaction : Option RData
  opener : OpenerResult
  clock : Clock
  scriptingThrows : Bool
deriving Repr

/-- The observable side effects of one `handleBlobTab` run. -/
structure BlobEffects where
  titleSet : Option (List Char)
  blobWrite : Option RData
  removedPending : Bool
deriving DecidableEq, Repr

/-- The fallback chain of `handleBlobTab`: fresh `pendingRename`, then the
live opener-tab query (a thrown or absent query, or a `null` response, falls
through), then `currentTransaction`. -/
def resolveBlobData (env : BlobEnv) : Option RData :=
  match tier1 env.pendingRename env.clock.nowMs with
  | some d => some d
  | none =>
    match (match env.opener with
           | .responded r => r
           | _ => none) with
    | some d => some d
    | none => env.currentTransaction

/-- `background.js` `handleBlobTab`: resolve data, bail out when disabled or
when no record with a nonempty `num` results; otherwise set the tab title
(unless the scripting call throws, which is caught), cache `blobRenameData`,
and remove `pendingRename` whenever one was read. -/
def handleBlobTabRun (env : BlobEnv) : BlobEffects :=
  if !env.settings.enabled then ⟨none, none, false⟩ else
  match resolveBlobData env with
  | none => ⟨none, none, false⟩
  | some d =>
    if d.num = [] then ⟨none, none, false⟩ else
    let title := buildFilename env.settings.format
      ⟨d.num, d.customer, d.type, env.settings.dateFormat⟩ env.clock
    ⟨if env.scriptingThrows then none else some title,
     some ⟨d.num, d.customer, d.type, none, some env.clock.nowMs⟩,
     env.pendingRename.isSome⟩

/-! ## Navigation watcher (content.js): debounce and settle timers -/

/-- A navigation signal: a `MutationObserver` callback firing at time `t`
with the document then at `url`, or a `'navigate'` runtime message from the
background arriving at time `t`. -/
inductive NavEvent
  | mutation (t : Nat) (url : List Char)
  | navMsg (t : Nat)
deriving DecidableEq, Repr

/-- The watcher's module state: `lastUrl`, the pending debounce timer
(`navTimer`, stored as its fire time), and the times at which `onNavigate`
has run so far. -/
structure NavState where
  lastUrl : List Char
  navTimer : Option Nat
  runs : List Nat
deriving DecidableEq, Repr

/-- Before handling an event at time `t`, a debounce timer whose fire time
has passed has already run `onNavigate` at that fire time. -/
def fireDue (s : NavState) (t : Nat) : NavState :=
  match s.navTimer with
  | some f => if f ≤ t then { s with navTimer := none, runs := s.runs ++ [f] } else s
  | none => s

/-- One event of the watcher.  The observer callback returns unless the URL
changed, records the new URL, cancels the pending debounce timer and starts a
fresh 100 ms one; the `'navigate'` message handler calls `onNavigate()`
directly. -/
def navStep (s : NavState) (e : NavEvent) : NavState :=
  match e with
  | .mutation t url =>
    let s := fireDue s t
    if url = s.lastUrl then s
    else { s with lastUrl := url, navTimer := some (t + 100) }
  | .navMsg t =>
    let s := fireDue s t
    { s with runs := s.runs ++ [t] }

/-- The times at which `onNavigate` runs for a chronological list of events
(a debounce timer still pending at the end fires unopposed). -/
def navRuns (initUrl : List Char) (events : List NavEvent) : List Nat :=
  let s := events.foldl navStep { lastUrl := initUrl, navTimer := none, runs := [] }
  match s.navTimer with
  | some f => s.runs ++ [f]
  | none => s.runs

/-- Each `onNavigate` run schedules one extraction 600 ms later
(`setTimeout(..., 600)` reading the DOM at its fire time). -/
def extractionTimes (initUrl : List Char) (events : List NavEvent) : List Nat :=
  (navRuns initUrl events).map (· + 600)

/-- What the extractions read: the route present at each extraction time,
for a given route-as-function-of-time history. -/
def extractionReads (initUrl : List Char) (events : List NavEvent)
    (urlAt : Nat → List Char) : List (List Char) :=
  (extractionTimes initUrl events).map urlAt

/-! ## Hotkey dispatcher (content.js triggerAction): which menu items get
clicked -/

/-- JavaScript `text.trim().toLowerCase()` applied to a menu item's
`innerText`. -/
def normText (l : List Char) : List Char :=
  (dropTrailing jsWs (l.dropWhile jsWs)).map Char.toLower

/-- The text compared against each item:
`action === 'download' ? 'download' : 'print'`. -/
def targetOf (action : List Char) : List Char :=
  if action = "download".data then "download".data else "print".data

/-- `content.js` `clickButton(selector)`: polls for the first element
matching the selector and clicks it.  Invoked by `triggerAction` on the
menu-item selector, it clicks the positionally first menu item as soon as the
menu is nonempty (returning the indices clicked). -/
def clickButtonClicks (menu : List (List Char)) : List Nat :=
  match menu with
  | [] => []
  | _ :: _ => [0]

/-- The text-matching loop of `triggerAction`: click the first menu item
whose normalized text equals the target, if any. -/
def menuLoopClicks (menu : List (List Char)) (action : List Char) : List Nat :=
  match menu.findIdx? (fun t => normText t == targetOf action) with
  | some i => [i]
  | none => []

/-- The menu-item clicks performed by one `triggerAction(action)` run once
the menu has rendered (menu items given by their `innerText`): the
`clickButton` wait-and-click, then — only when the menu was found — the
text-matching loop. -/
def triggerActionMenuClicks (menu : List (List Char)) (action : List Char) :
    List Nat :=
  clickButtonClicks menu ++ (if menu = [] then [] else menuLoopClicks menu action)

/-! ## Concrete records used by counterexamples and witnesses -/

/-- The default settings record with everything enabled. -/
def defSettings : SettingsObj :=
  { enabled := true, format := "{num} - {customer}".data,
    dateFormat := "YYYY-MM-DD".data, notifyMode := "toast".data }

/-- A pending-rename record written at time 0 with action `download`. -/
def pendStale : RData :=
  { num := "1".data, customer := [], type := "Estimate".data,
    action := some "download".data, timestamp := some 0 }

/-- The record answered by the opener tab in the C5 scenario. -/
def openerRec : RData :=
  { num := "99".data, customer := "Acme".data, type := "Invoice".data }

/-- Preview-tab environment at time 20000: the pending record is 20000 ms
old (stale), the opener tab answers with live data. -/
def envC5 : BlobEnv :=
  { settings := defSettings, pendingRename := some pendStale,
    currentTransaction := none, opener := .responded (some openerRec),
    clock := ⟨2026, 2, 20, 20000⟩, scriptingThrows := false }

/-- Preview-tab environment with every data source empty. -/
def envC10 : BlobEnv :=
  { settings := defSettings, pendingRename := none,
    currentTransaction := none, opener := .noOpener,
    clock := ⟨2026, 2, 20, 0⟩, scriptingThrows := false }

/-- The legacy preference store: only the boolean `showNotification` is set. -/
def legacyStore : SyncStore := ⟨none, none, none, none, some false⟩

/-- A rendered action menu whose first item is Print. -/
def menuPD : List (List Char) := ["Print".data, "Download".data]

/-- Fresh pending record for the C2 scenario: age 5000 ms at time 200000. -/
def pendFresh : RData :=
  { num := "2".data, customer := "B".data, type := "Invoice".data,
    action := some "print".data, timestamp := some 195000 }

/-- Expired pending record for the C2 scenario: age 20000 ms at time 200000. -/
def pendOld : RData :=
  { num := "5".data, customer := "O".data, type := "Invoice".data,
    action := some "print".data, timestamp := some 180000 }

/-- Blob cache record for the C2 scenario: age 200000 ms at time 200000. -/
def blobRec : RData :=
  { num := "3".data, customer := "C".data, type := "Bill".data,
    timestamp := some 0 }

/-- Current-transaction record for the C2 scenario. -/
def currRec : RData :=
  { num := "4".data, customer := "D".data, type := "Estimate".data }

/-- A download item outside the extension's scope. -/
def itemPlain : Item := ⟨"https://example.com/x".data, "notes.txt".data⟩

/-- A failure-free environment with default settings. -/
def envC7 : DlEnv :=
  { settings := defSettings, pendingRename := none, blobRenameData := none,
    currentTransaction := none, clock := ⟨2026, 2, 20, 0⟩, failAt := none }

/-- Fresh pending record with action `print`. -/
def pendPrint : RData :=
  { num := "7".data, customer := "E".data, type := "Estimate".data,
    action := some "print".data, timestamp := some 1000 }

/-! ## C8 -/

/-- C8: the claim says the first settings read migrates a legacy boolean
`showNotification` to `notifyMode` and removes the boolean key.  In the code,
`chrome.storage.sync.get(DEFAULTS)` returns only the keys of `DEFAULTS`, which
do not include `showNotification`, so the migration branch of `getSettings`
can never run: every read returns the defaults-merged record and leaves the
store untouched.  On the legacy store `{showNotification: false}` the read
yields `notifyMode = "toast"` (not `"off"`) and the boolean key survives. -/
theorem C8_migration_dead :
    (∀ store : SyncStore, getSettingsRun store = (syncGetDefaults store, store)) ∧
    (getSettingsRun legacyStore).1.notifyMode = "toast".data ∧
    (getSettingsRun legacyStore).2.showNotif = some false := by
  refine ⟨fun store => rfl, rfl, rfl⟩

/-! ## C6 -/

/-- C6: the claim says no menu item whose visible text does not match the
requested action is ever clicked.  In the code, `triggerAction` waits for the
menu with `clickButton(menu-item selector)`, which clicks the positionally
first menu item as soon as it exists; only afterwards does the text-matching
loop click the right item.  With menu `[Print, Download]` and requested action
`download`, items 0 and 1 are both clicked, and item 0's text is `print`,
not the requested `download`. -/
theorem C6_first_item_clicked_positionally :
    triggerActionMenuClicks menuPD "download".data = [0, 1] ∧
    menuPD.get? 0 = some "Print".data ∧
    normText "Print".data ≠ targetOf "download".data ∧
    normText "Download".data = targetOf "download".data := by
  refine ⟨by decide, rfl, by decide, by decide⟩

/-! ## C5 -/

/-- C5 counterexample: in `envC5` the pending record is present but stale, so
resolution uses the opener-tab response; yet `handleBlobTab` removes the
`pendingRename` key (`if (pendingRename) remove` tests presence, not
source). The claim says the key is left unchanged when the data came from the
opener query. -/
theorem C5_counterexample :
    tier1 (some pendStale) envC5.clock.nowMs = none ∧
    resolveBlobData envC5 = some openerRec ∧
    openerRec ≠ pendStale ∧
    (handleBlobTabRun envC5).removedPending = true := by
  refine ⟨by decide, rfl, by decide, by decide⟩

/-- C5 (amended): the preview-tab hook removes `pendingRename` exactly when
the hook is enabled, a `pendingRename` record exists at read time (fresh or
stale), and resolution produced a record with a nonempty `num` — regardless
of which tier was the source; otherwise the key is left unchanged. -/
theorem C5_removed_iff_present_and_resolved (env : BlobEnv) :
    (handleBlobTabRun env).removedPending =
      (env.settings.enabled && env.pendingRename.isSome &&
        (match resolveBlobData env with
         | some d => !d.num.isEmpty
         | none => false)) := by
  unfold handleBlobTabRun
  rcases henabled : env.settings.enabled with _ | _
  · simp [henabled]
  · rcases hres : resolveBlobData env with _ | d
    · simp [henabled, hres]
    · rcases hnum : d.num with _ | ⟨c, t⟩
      · simp [henabled, hres, hnum]
      · simp [henabled, hres, hnum]

/-! ## C10 -/

/-- C10: when the preview-tab hook resolves no data, or a record whose `num`
is empty, it performs no side effects at all: no title mutation, no
`blobRenameData` write, no `pendingRename` removal. -/
theorem C10_no_effects_without_num (env : BlobEnv)
    (h : resolveBlobData env = none ∨
         ∃ d, resolveBlobData env = some d ∧ d.num = []) :
    handleBlobTabRun env = ⟨none, none, false⟩ := by
  unfold handleBlobTabRun
  rcases henabled : env.settings.enabled with _ | _
  · simp [henabled]
  · rcases h with h | ⟨d, hd, hnum⟩
    · simp [henabled, h]
    · simp [henabled, hd, hnum]

/-- Witness for C10 at the all-empty environment. -/
theorem C10_witness : handleBlobTabRun envC10 = ⟨none, none, false⟩ :=
  C10_no_effects_without_num envC10 (Or.inl rfl)

/-! ## C4 -/

/-- C4 counterexample: two route changes signalled by `'navigate'` messages
50 ms apart — well inside the settle window — produce two extractions
(at t+600 each), because the message handler calls `onNavigate()` directly
without the debounce timer.  The claim says exactly one extraction runs. -/
theorem C4_counterexample :
    extractionTimes "a".data [NavEvent.navMsg 0, NavEvent.navMsg 50] = [600, 650] ∧
    (extractionTimes "a".data [NavEvent.navMsg 0, NavEvent.navMsg 50]).length = 2 := by
  exact ⟨rfl, rfl⟩

/-- C4 (amended): only the mutation-observer signal is debounced.  Two
observer-detected route changes within the 100 ms debounce window coalesce
into exactly one extraction, at `t2 + 700`, which reads the final route's
state; a `'navigate'` message, by contrast, always yields its own extraction
600 ms later. -/
theorem C4_mutation_debounce (t1 t2 : Nat) (u0 u1 u2 : List Char)
    (urlAt : Nat → List Char)
    (hle : t1 ≤ t2) (hwin : t2 < t1 + 100) (h1 : u1 ≠ u0) (h2 : u2 ≠ u1)
    (hsettle : ∀ t, t2 ≤ t → urlAt t = u2) :
    extractionTimes u0 [NavEvent.mutation t1 u1, NavEvent.mutation t2 u2]
      = [t2 + 700] ∧
    extractionReads u0 [NavEvent.mutation t1 u1, NavEvent.mutation t2 u2] urlAt
      = [u2] ∧
    (∀ t, extractionTimes u0 [NavEvent.navMsg t] = [t + 600]) := by
  have hfire : ¬ (t1 + 100 ≤ t2) := by omega
  have hread : urlAt (t2 + 100 + 600) = u2 := hsettle _ (by omega)
  refine ⟨?_, ?_, ?_⟩
  · simp [extractionTimes, navRuns, navStep, fireDue, h1, h2, hfire]
  · simp [extractionReads, extractionTimes, navRuns, navStep, fireDue,
      h1, h2, hfire, hread]
  · intro t
    simp [extractionTimes, navRuns, navStep, fireDue]

/-- Witness for C4 (amended) at concrete times and routes. -/
theorem C4_mutation_debounce_witness :
    extractionTimes "a".data
        [NavEvent.mutation 0 "b".data, NavEvent.mutation 50 "c".data]
      = [750] ∧
    extractionReads "a".data
        [NavEvent.mutation 0 "b".data, NavEvent.mutation 50 "c".data]
        (fun _ => "c".data)
      = ["c".data] ∧
    (∀ t, extractionTimes "a".data [NavEvent.navMsg t] = [t + 600]) :=
  C4_mutation_debounce 0 50 "a".data "b".data "c".data (fun _ => "c".data)
    (by decide) (by decide) (by decide) (by decide) (fun t _ => rfl)

/-! ## C2 -/

/-- C2: the download fallback chain consults its tiers strictly in order,
short-circuiting on the first non-stale hit: a fresh `pendingRename`
(younger than 15000 ms) always wins; with tier 1 missed, a fresh
`blobRenameData` (younger than 300000 ms) wins for blob-origin items and is
never consulted for non-blob items; with tiers 1-2 missed,
`currentTransaction` wins with no age check; with all three missed, the
original filename is parsed, yielding type and number with empty customer. -/
theorem C2_fallback_chain_order :
    (∀ (p : RData) (blob current : Option RData) (now : Nat) (isBlob : Bool)
       (fn : List Char) (ts : Nat), p.timestamp = some ts → now - ts < 15000 →
       resolveDownloadData (some p) blob current now isBlob fn = some p) ∧
    (∀ (pending : Option RData) (b : RData) (current : Option RData) (now : Nat)
       (fn : List Char) (ts : Nat), tier1 pending now = none →
       b.timestamp = some ts → now - ts < 300000 →
       resolveDownloadData pending (some b) current now true fn = some b) ∧
    (∀ (blob : Option RData) (now : Nat), tier2 blob now false = none) ∧
    (∀ (pending blob : Option RData) (c : RData) (now : Nat) (isBlob : Bool)
       (fn : List Char), tier1 pending now = none →
       tier2 blob now isBlob = none →
       resolveDownloadData pending blob (some c) now isBlob fn = some c) ∧
    (∀ (pending blob : Option RData) (now : Nat) (isBlob : Bool) (fn : List Char),
       tier1 pending now = none → tier2 blob now isBlob = none →
       resolveDownloadData pending blob none now isBlob fn =
         parseQboFilename (some fn)) ∧
    (∀ (fn : List Char) (d : RData), parseQboFilename (some fn) = some d →
       d.customer = []) := by
  refine ⟨?_, ?_, ?_, ?_, ?_, ?_⟩
  · intro p blob current now isBlob fn ts hts hfresh
    have h1 : tier1 (some p) now = some p := by simp [tier1, hts, hfresh]
    unfold resolveDownloadData
    simp [h1]
  · intro pending b current now fn ts h1 hts hfresh
    have h2 : tier2 (some b) now true = some b := by simp [tier2, hts, hfresh]
    unfold resolveDownloadData
    simp [h1, h2]
  · intro blob now
    simp [tier2]
  · intro pending blob c now isBlob fn h1 h2
    unfold resolveDownloadData
    simp [h1, h2]
  · intro pending blob now isBlob fn h1 h2
    unfold resolveDownloadData
    simp [h1, h2]
  · intro fn d h
    simp only [parseQboFilename] at h
    split at h
    · exact absurd h (by simp)
    · split at h
      · injection h with h2
        rw [← h2]
      · exact absurd h (by simp)

/-- Witness for C2: with all tiers present, a fresh pending record (age 5
units) wins; with pending expired (age 20 units), the blob cache (age 200
units) wins on a blob item and `currentTransaction` wins otherwise. -/
theorem C2_witness :
    resolveDownloadData (some pendFresh) (some blobRec) (some currRec) 200000
      true "x".data = some pendFresh ∧
    resolveDownloadData (some pendOld) (some blobRec) (some currRec) 200000
      true "x".data = some blobRec ∧
    resolveDownloadData (some pendOld) (some blobRec) (some currRec) 200000
      false "x".data = some currRec :=
  ⟨C2_fallback_chain_order.1 pendFresh (some blobRec) (some currRec) 200000
      true "x".data 195000 rfl (by decide),
   C2_fallback_chain_order.2.1 (some pendOld) blobRec (some currRec) 200000
      "x".data 0 (by decide) rfl (by decide),
   C2_fallback_chain_order.2.2.2.1 (some pendOld) (some blobRec) currRec 200000
      false "x".data (by decide) (by decide)⟩

/-! ## C7 -/

/-- C7: when the global `enabled` setting is off, or the item is neither a
QBO blob nor named with the QBO `<Type> <number>` pattern, the callback
receives the original filename with no `conflictAction`, and no session-store
key is consumed and no notification fired — for every failure point. -/
theorem C7_pass_through (item : Item) (env : DlEnv)
    (h : env.settings.enabled = false ∨
         (isBlobUrl item.url = false ∧
          parseQboFilename (some item.filename) = none)) :
    (onDeterminingFilenameRun item env).suggests = [⟨item.filename, none⟩] ∧
    (onDeterminingFilenameRun item env).removedPending = false ∧
    (onDeterminingFilenameRun item env).notified = false := by
  unfold onDeterminingFilenameRun renameDownloadRun
  by_cases hs : env.failAt = some FailPoint.atSettings
  · simp [hs]
  · rcases h with h | ⟨hurl, hfn⟩
    · simp [hs, h]
    · by_cases he : env.settings.enabled
      · simp [hs, he, hurl, hfn]
      · simp [hs, he]

/-- Witness for C7 at a scope-missed item. -/
theorem C7_witness :
    (onDeterminingFilenameRun itemPlain envC7).suggests
      = [⟨itemPlain.filename, none⟩] ∧
    (onDeterminingFilenameRun itemPlain envC7).removedPending = false ∧
    (onDeterminingFilenameRun itemPlain envC7).notified = false :=
  C7_pass_through itemPlain envC7 (Or.inr ⟨by decide, by decide⟩)

/-! ## C1 -/

/-- C1: for every item descriptor and every outcome of the async resolution
path — settings disabled, scope-guard miss, every fallback tier absent or
stale, a rejection at any awaited step, and an exception in the post-suggest
cleanup — the wrapped listener invokes `suggest` exactly once and never lets
a rejection escape. -/
theorem C1_suggest_exactly_once (item : Item) (env : DlEnv) :
    (onDeterminingFilenameRun item env).suggests.length = 1 ∧
    (onDeterminingFilenameRun item env).threw = false := by
  have h : (renameDownloadRun item env).threw = true ∧
      (renameDownloadRun item env).suggests = [] ∨
      (renameDownloadRun item env).threw = false ∧
      (renameDownloadRun item env).suggests.length = 1 := by
    obtain ⟨st, pr, bl, cu, ck, fa⟩ := env
    unfold renameDownloadRun
    dsimp only
    (repeat' split) <;> simp
  unfold onDeterminingFilenameRun
  rcases h with ⟨ht, hs⟩ | ⟨ht, hs⟩
  · simp [ht, hs]
  · simp [ht, hs]

/-! ## C9 -/

/-- Tier 1 is insensitive to the `action` field: it accepts by timestamp only
and returns the record with its action intact. -/
theorem tier1_setAction (pending : Option RData) (a : Option (List Char))
    (now : Nat) :
    tier1 (pending.map (fun p => setAction p a)) now =
      (tier1 pending now).map (fun p => setAction p a) := by
  rcases pending with _ | p
  · rfl
  · rcases hts : p.timestamp with _ | ts
    · simp [tier1, setAction, hts]
    · by_cases hf : now - ts < 15000
      · simp [tier1, setAction, hts, hf]
      · simp [tier1, setAction, hts, hf]

/-- Rewriting the pending record's action either leaves resolution unchanged
(tier 1 missed) or changes only the action field of the tier-1 result. -/
theorem resolve_setAction (pending blob current : Option RData) (now : Nat)
    (isBlob : Bool) (fn : List Char) (a : Option (List Char)) :
    resolveDownloadData (pending.map (fun p => setAction p a)) blob current
        now isBlob fn =
      match tier1 pending now with
      | some d => some (setAction d a)
      | none => resolveDownloadData pending blob current now isBlob fn := by
  unfold resolveDownloadData
  rw [tier1_setAction]
  rcases h : tier1 pending now with _ | d <;> simp [h]

/-- C9: the `action` field recorded by the click detector is never consulted
by either resolution path: rewriting it changes neither the save-intercept
run (suggestions, throw status, store effects) nor the preview-tab effects,
and a fresh pending record is accepted by the download chain whatever its
action (in particular with action `print`). -/
theorem C9_action_field_ignored :
    (∀ (item : Item) (env : DlEnv) (a : Option (List Char)),
       onDeterminingFilenameRun item
         { env with pendingRename := env.pendingRename.map (fun p => setAction p a) }
         = onDeterminingFilenameRun item env) ∧
    (∀ (env : BlobEnv) (a : Option (List Char)),
       handleBlobTabRun
         { env with pendingRename := env.pendingRename.map (fun p => setAction p a) }
         = handleBlobTabRun env) ∧
    (∀ (p : RData) (blob current : Option RData) (now : Nat) (isBlob : Bool)
       (fn : List Char) (ts : Nat), p.timestamp = some ts → now - ts < 15000 →
       resolveDownloadData (some p) blob current now isBlob fn = some p ∧
       resolveDownloadData (some (setAction p (some "print".data))) blob current
         now isBlob fn = some (setAction p (some "print".data))) := by
  refine ⟨?_, ?_, ?_⟩
  · intro item env a
    obtain ⟨st, pr, bl, cu, ck, fa⟩ := env
    unfold onDeterminingFilenameRun renameDownloadRun
    dsimp only
    rw [resolve_setAction, tier1_setAction]
    rcases h1 : tier1 pr ck.nowMs with _ | d
    · simp [h1]
    · have hres : resolveDownloadData pr bl cu ck.nowMs (isBlobUrl item.url)
          item.filename = some d := by
        unfold resolveDownloadData
        rw [h1]
      simp [h1, hres, setAction]
  · intro env a
    obtain ⟨st, pr, cu, op, ck, sf⟩ := env
    unfold handleBlobTabRun resolveBlobData
    dsimp only
    rw [tier1_setAction]
    rcases h1 : tier1 pr ck.nowMs with _ | d
    · simp [h1]
    · simp [h1, setAction]
  · intro p blob current now isBlob fn ts hts hfresh
    constructor
    · have h1 : tier1 (some p) now = some p := by simp [tier1, hts, hfresh]
      unfold resolveDownloadData
      simp [h1]
    · have h1 : tier1 (some (setAction p (some "print".data))) now
          = some (setAction p (some "print".data)) := by
        simp [tier1, setAction, hts, hfresh]
      unfold resolveDownloadData
      simp [h1]

/-- Witness for C9: a fresh pending record with action `print` is accepted by
the download resolution chain. -/
theorem C9_witness :
    resolveDownloadData (some pendPrint) none none 2000 false [] = some pendPrint ∧
    resolveDownloadData (some (setAction pendPrint (some "print".data))) none
      none 2000 false [] = some (setAction pendPrint (some "print".data)) :=
  C9_action_field_ignored.2.2 pendPrint none none 2000 false [] 1000 rfl
    (by decide)

/-! ## C3: lemmas about the sanitization pipeline -/

/-- Every character of `collapseWs l` is a space or comes from `l`. -/
theorem mem_collapseWs : ∀ (l : List Char) (c : Char),
    c ∈ collapseWs l → c = ' ' ∨ c ∈ l
  | [], c, h => by simp [collapseWs] at h
  | [a], c, h => by
      simp [collapseWs] at h
      simp [h]
  | a :: b :: rest, c, h => by
      simp only [collapseWs] at h
      split at h
      · rcases mem_collapseWs (' ' :: rest) c h with h1 | h1
        · exact Or.inl h1
        · rcases List.mem_cons.mp h1 with h2 | h2
          · exact Or.inl h2
          · exact Or.inr (by simp [List.mem_cons, h2])
      · rcases List.mem_cons.mp h with h1 | h1
        · exact Or.inr (by simp [List.mem_cons, h1])
        · rcases mem_collapseWs (b :: rest) c h1 with h2 | h2
          · exact Or.inl h2
          · rcases List.mem_cons.mp h2 with h3 | h3
            · exact Or.inr (by simp [List.mem_cons, h3])
            · exact Or.inr (by simp [List.mem_cons, h3])
termination_by l => l.length

/-- `collapseWs` keeps the head character, or replaces a whitespace head by a
space. -/
theorem collapseWs_head : ∀ (c : Char) (rest : List Char),
    (∃ t, collapseWs (c :: rest) = c :: t) ∨
    (jsWs c = true ∧ ∃ t, collapseWs (c :: rest) = ' ' :: t)
  | c, [] => Or.inl ⟨[], by simp [collapseWs]⟩
  | c, b :: rest => by
      by_cases h : (jsWs c && jsWs b) = true
      · refine Or.inr ⟨(Bool.and_eq_true _ _).mp h |>.1, ?_⟩
        rcases collapseWs_head ' ' rest with ⟨t, ht⟩ | ⟨_, t, ht⟩
        · exact ⟨t, by simp only [collapseWs]; rw [if_pos h]; exact ht⟩
        · exact ⟨t, by simp only [collapseWs]; rw [if_pos h]; exact ht⟩
      · exact Or.inl ⟨collapseWs (b :: rest),
          by simp only [collapseWs]; rw [if_neg h]⟩
termination_by c rest => rest.length

/-- After `collapseWs` no two adjacent characters are both whitespace. -/
theorem hasDoubleWs_collapseWs : ∀ l : List Char,
    hasDoubleWs (collapseWs l) = false
  | [] => by simp [collapseWs, hasDoubleWs]
  | [c] => by simp [collapseWs, hasDoubleWs]
  | a :: b :: rest => by
      simp only [collapseWs]
      split
      · exact hasDoubleWs_collapseWs (' ' :: rest)
      · rename_i hcond
        have hIH := hasDoubleWs_collapseWs (b :: rest)
        rcases collapseWs_head b rest with ⟨t, ht⟩ | ⟨hwb, t, ht⟩
        · rw [ht] at hIH ⊢
          simp only [hasDoubleWs, Bool.or_eq_false_iff]
          refine ⟨?_, hIH⟩
          cases hja : jsWs a <;> cases hjb : jsWs b <;> simp_all
        · rw [ht] at hIH ⊢
          simp only [hasDoubleWs, Bool.or_eq_false_iff]
          refine ⟨?_, hIH⟩
          cases hja : jsWs a
          · simp
          · exact absurd (by simp [hja, hwb]) hcond
termination_by l => l.length

/-- `collapseDashes` keeps the head character. -/
theorem collapseDashes_cons : ∀ (a : Char) (l : List Char),
    ∃ t, collapseDashes (a :: l) = a :: t
  | a, [] => ⟨[], by simp [collapseDashes]⟩
  | a, [b] => ⟨[b], by simp [collapseDashes]⟩
  | a, b :: d :: rest => by
      simp only [collapseDashes]
      split
      · rename_i h
        obtain ⟨⟨ha, hb⟩, hd⟩ :
            (a = '-' ∧ b = '-') ∧ d = '-' := by simpa using h
        obtain ⟨t, ht⟩ := collapseDashes_cons '-' ('-' :: rest)
        exact ⟨t, by rw [ht, ha]⟩
      · exact ⟨collapseDashes (b :: d :: rest), rfl⟩
termination_by a l => l.length

/-- `collapseDashes` keeps the first two characters. -/
theorem collapseDashes_cons₂ : ∀ (a b : Char) (l : List Char),
    ∃ t, collapseDashes (a :: b :: l) = a :: b :: t
  | a, b, [] => ⟨[], by simp [collapseDashes]⟩
  | a, b, d :: rest => by
      simp only [collapseDashes]
      split
      · rename_i h
        obtain ⟨⟨ha, hb⟩, hd⟩ :
            (a = '-' ∧ b = '-') ∧ d = '-' := by simpa using h
        obtain ⟨t, ht⟩ := collapseDashes_cons₂ '-' '-' rest
        exact ⟨t, by rw [ht, ha, hb]⟩
      · obtain ⟨t, ht⟩ := collapseDashes_cons b (d :: rest)
        exact ⟨t, by rw [ht]⟩
termination_by a b l => l.length

/-- Every character of `collapseDashes l` comes from `l`. -/
theorem mem_collapseDashes : ∀ (l : List Char) (c : Char),
    c ∈ collapseDashes l → c ∈ l
  | [], c, h => by simpa [collapseDashes] using h
  | [a], c, h => by simpa [collapseDashes] using h
  | [a, b], c, h => by simpa [collapseDashes] using h
  | a :: b :: d :: rest, c, h => by
      simp only [collapseDashes] at h
      split at h
      · rename_i hcond
        obtain ⟨⟨ha, hb⟩, hd⟩ :
            (a = '-' ∧ b = '-') ∧ d = '-' := by simpa using hcond
        have h2 := mem_collapseDashes ('-' :: '-' :: rest) c h
        subst ha hb hd
        simp only [List.mem_cons] at h2 ⊢
        tauto
      · rcases List.mem_cons.mp h with h1 | h1
        · simp [List.mem_cons, h1]
        · have h2 := mem_collapseDashes (b :: d :: rest) c h1
          simp only [List.mem_cons] at h2 ⊢
          tauto
termination_by l => l.length

/-- A triple-dash-free tail. -/
theorem hasTripleDash_tail (c : Char) (l : List Char)
    (h : hasTripleDash (c :: l) = false) : hasTripleDash l = false := by
  cases l with
  | nil => rfl
  | cons b t =>
    cases t with
    | nil => rfl
    | cons d t2 =>
      simp only [hasTripleDash, Bool.or_eq_false_iff] at h
      exact h.2

/-- After `collapseDashes` no three adjacent characters are all dashes. -/
theorem hasTripleDash_collapseDashes : ∀ l : List Char,
    hasTripleDash (collapseDashes l) = false
  | [] => by simp [collapseDashes, hasTripleDash]
  | [a] => by simp [collapseDashes, hasTripleDash]
  | [a, b] => by simp [collapseDashes, hasTripleDash]
  | a :: b :: d :: rest => by
      simp only [collapseDashes]
      split
      · exact hasTripleDash_collapseDashes ('-' :: '-' :: rest)
      · rename_i hcond
        obtain ⟨t, ht⟩ := collapseDashes_cons₂ b d rest
        have hIH := hasTripleDash_collapseDashes (b :: d :: rest)
        rw [ht] at hIH
        rw [ht]
        simp only [hasTripleDash, Bool.or_eq_false_iff]
        refine ⟨?_, hIH⟩
        by_cases hx : (a == '-' && b == '-' && d == '-') = true
        · exact absurd hx hcond
        · simpa using hx
termination_by l => l.length

/-- A double-whitespace-free tail. -/
theorem hasDoubleWs_tail (c : Char) (l : List Char)
    (h : hasDoubleWs (c :: l) = false) : hasDoubleWs l = false := by
  cases l with
  | nil => rfl
  | cons b t =>
    simp only [hasDoubleWs, Bool.or_eq_false_iff] at h
    exact h.2

/-- `collapseDashes` preserves freedom from adjacent whitespace pairs. -/
theorem hasDoubleWs_collapseDashes : ∀ l : List Char,
    hasDoubleWs l = false → hasDoubleWs (collapseDashes l) = false
  | [], h => by simpa [collapseDashes] using h
  | [a], h => by simpa [collapseDashes] using h
  | [a, b], h => by simpa [collapseDashes] using h
  | a :: b :: d :: rest, h => by
      simp only [collapseDashes]
      split
      · rename_i hcond
        obtain ⟨⟨ha, hb⟩, hd⟩ :
            (a = '-' ∧ b = '-') ∧ d = '-' := by simpa using hcond
        apply hasDoubleWs_collapseDashes ('-' :: '-' :: rest)
        subst ha hb hd
        exact hasDoubleWs_tail _ _ h
      · rename_i hcond
        obtain ⟨t, ht⟩ := collapseDashes_cons₂ b d rest
        rw [ht]
        have hIH := hasDoubleWs_collapseDashes (b :: d :: rest)
          (hasDoubleWs_tail _ _ h)
        rw [ht] at hIH
        simp only [hasDoubleWs, Bool.or_eq_false_iff] at h hIH ⊢
        exact ⟨h.1, hIH⟩
termination_by l => l.length

/-- The head surviving a `dropWhile` fails the predicate. -/
theorem dropWhile_head_not (p : Char → Bool) : ∀ (l : List Char) (c : Char)
    (t : List Char), l.dropWhile p = c :: t → p c = false
  | [], c, t, h => by simp at h
  | a :: rest, c, t, h => by
      rw [List.dropWhile_cons] at h
      split at h
      · exact dropWhile_head_not p rest c t h
      · rename_i hp
        injection h with h1 h2
        subst h1
        simpa using hp

/-- `dropTrailing` yields a prefix. -/
theorem dropTrailing_isPre (p : Char → Bool) (l : List Char) :
    dropTrailing p l <+: l := by
  unfold dropTrailing
  obtain ⟨t, ht⟩ : l.reverse.dropWhile p <:+ l.reverse := List.dropWhile_suffix p
  refine ⟨t.reverse, ?_⟩
  rw [← List.reverse_append, ht, List.reverse_reverse]

/-- The trim step yields an infix of its input. -/
theorem trimWsDots_isInf (l : List Char) : trimWsDots l <:+: l := by
  unfold trimWsDots
  exact ((dropTrailing_isPre wsDot (l.dropWhile wsDot)).isInfix).trans
    ((List.dropWhile_suffix wsDot).isInfix)

/-- The first character surviving the trim step is not whitespace or a dot. -/
theorem trimWsDots_head (l : List Char) (c : Char) (t : List Char)
    (h : trimWsDots l = c :: t) : wsDot c = false := by
  obtain ⟨t2, ht2⟩ := dropTrailing_isPre wsDot (l.dropWhile wsDot)
  rw [show dropTrailing wsDot (l.dropWhile wsDot) = trimWsDots l from rfl, h]
    at ht2
  exact dropWhile_head_not wsDot l c (t ++ t2) (by rw [← ht2]; simp)

/-- The last character surviving the trim step is not whitespace or a dot. -/
theorem trimWsDots_getLastD (l : List Char) (hne : trimWsDots l ≠ []) :
    wsDot ((trimWsDots l).getLastD 'Q') = false := by
  rcases hcz : (l.dropWhile wsDot).reverse.dropWhile wsDot with _ | ⟨c, t⟩
  · exact absurd (by simp [trimWsDots, dropTrailing, hcz]) hne
  · have hc : wsDot c = false :=
      dropWhile_head_not wsDot (l.dropWhile wsDot).reverse c t hcz
    have : trimWsDots l = (c :: t).reverse := by
      simp [trimWsDots, dropTrailing, hcz]
    rw [this, List.reverse_cons, List.getLastD_concat]
    exact hc

/-- An adjacent pair of whitespace characters appearing as an infix forces
`hasDoubleWs`. -/
theorem hasDoubleWs_of_infix : ∀ (l : List Char) (a b : Char),
    jsWs a = true → jsWs b = true → [a, b] <:+: l → hasDoubleWs l = true
  | [], a, b, ha, hb, h => by simp at h
  | x :: rest, a, b, ha, hb, h => by
      rcases List.infix_cons_iff.mp h with h1 | h1
      · obtain ⟨t, ht⟩ := h1
        cases rest with
        | nil => simp at ht
        | cons y t2 =>
          injection ht with hxa ht2
          injection ht2 with hyb _
          subst hxa hyb
          simp [hasDoubleWs, ha, hb]
      · have h2 := hasDoubleWs_of_infix rest a b ha hb h1
        cases rest with
        | nil => simp [hasDoubleWs] at h2
        | cons y t2 => simp [hasDoubleWs, h2]

/-- Three adjacent dashes appearing as an infix force `hasTripleDash`. -/
theorem hasTripleDash_of_infix : ∀ l : List Char,
    ['-', '-', '-'] <:+: l → hasTripleDash l = true
  | [], h => by simp at h
  | x :: rest, h => by
      rcases List.infix_cons_iff.mp h with h1 | h1
      · obtain ⟨t, ht⟩ := h1
        cases rest with
        | nil => simp at ht
        | cons y t2 =>
          cases t2 with
          | nil => simp at ht
          | cons z t3 =>
            injection ht with hx ht2
            injection ht2 with hy ht3
            injection ht3 with hz _
            subst hx hy hz
            simp [hasTripleDash]
      · have h2 := hasTripleDash_of_infix rest h1
        cases rest with
        | nil => simp [hasTripleDash] at h2
        | cons y t2 =>
          cases t2 with
          | nil => simp [hasTripleDash] at h2
          | cons z t3 => simp [hasTripleDash, h2]

/-- Every digit rendered by `digitOf` is a decimal digit character. -/
theorem digitOf_mem (k : Nat) : digitOf k ∈ decDigits := by
  unfold digitOf
  repeat' split
  all_goals decide

/-- Every character of `natDigits n` is a decimal digit character. -/
theorem mem_natDigits : ∀ (n : Nat) (c : Char), c ∈ natDigits n → c ∈ decDigits
  | 0, c, h => by simp [natDigits] at h
  | n + 1, c, h => by
      rw [natDigits] at h
      rcases List.mem_append.mp h with h1 | h1
      · exact mem_natDigits _ c h1
      · rw [List.mem_singleton] at h1
        rw [h1]
        exact digitOf_mem _
termination_by n c h => n
decreasing_by exact Nat.div_lt_self (Nat.succ_pos n) (by omega)

/-- Every character of `natChars n` is a decimal digit character. -/
theorem mem_natChars (n : Nat) (c : Char) (h : c ∈ natChars n) : c ∈ decDigits := by
  unfold natChars at h
  split at h
  · rw [List.mem_singleton] at h
    rw [h]
    decide
  · exact mem_natDigits n c h

/-- Character-class facts about decimal digits. -/
theorem decDigits_props : ∀ c ∈ decDigits,
    illegalChar c = false ∧ jsWs c = false ∧ (c == '-') = false ∧
    wsDot c = false := by decide

/-- Character-class facts about the literal part of the fallback name. -/
theorem qboDoc_chars : ∀ c ∈ "QBO_Document_".data,
    illegalChar c = false ∧ jsWs c = false ∧ (c == '-') = false ∧
    wsDot c = false := by decide

/-- Character-class facts about every character of the fallback name. -/
theorem fallback_chars (clk : Clock) (c : Char) (h : c ∈ fallbackName clk) :
    illegalChar c = false ∧ jsWs c = false ∧ (c == '-') = false ∧
    wsDot c = false := by
  unfold fallbackName at h
  rcases List.mem_append.mp h with h1 | h1
  · exact qboDoc_chars c h1
  · exact decDigits_props c (mem_natChars clk.nowMs c h1)

/-- `natChars` never renders an empty digit string. -/
theorem natChars_ne_nil (n : Nat) : natChars n ≠ [] := by
  unfold natChars
  split
  · simp
  · rename_i hn
    cases n with
    | zero => exact absurd rfl hn
    | succ m =>
      rw [natDigits]
      simp

/-- `getLastD` of an append with nonempty right part. -/
theorem getLastD_append_right (l1 l2 : List Char) (d : Char) (h : l2 ≠ []) :
    (l1 ++ l2).getLastD d = l2.getLastD d := by
  rw [List.getLastD_eq_getLast?, List.getLastD_eq_getLast?,
    List.getLast?_append_of_ne_nil l1 h]

/-- `getLastD` of a nonempty list is one of its elements. -/
theorem getLastD_mem (l : List Char) (d : Char) (h : l ≠ []) :
    l.getLastD d ∈ l := by
  rw [List.getLastD_eq_getLast?, List.getLast?_eq_getLast l h]
  simpa using List.getLast_mem h

/-- The fallback name satisfies every output guarantee of the formatter. -/
theorem fallback_props (clk : Clock) :
    fallbackName clk ≠ [] ∧
    (∀ c ∈ fallbackName clk, illegalChar c = false) ∧
    ¬ ([' ', ' '] <:+: fallbackName clk) ∧
    ¬ (['-', '-', '-'] <:+: fallbackName clk) ∧
    wsDot ((fallbackName clk).headD 'Q') = false ∧
    wsDot ((fallbackName clk).getLastD 'Q') = false := by
  refine ⟨?_, ?_, ?_, ?_, ?_, ?_⟩
  · unfold fallbackName
    simp
  · intro c h
    exact (fallback_chars clk c h).1
  · intro hinf
    have hmem : ' ' ∈ fallbackName clk := hinf.sublist.subset (by decide)
    exact absurd (fallback_chars clk ' ' hmem).2.1 (by decide)
  · intro hinf
    have hmem : '-' ∈ fallbackName clk := hinf.sublist.subset (by decide)
    exact absurd (fallback_chars clk '-' hmem).2.2.1 (by decide)
  · have hh : (fallbackName clk).headD 'Q' = 'Q' := rfl
    rw [hh]
    decide
  · rw [show fallbackName clk = "QBO_Document_".data ++ natChars clk.nowMs
      from rfl]
    rw [getLastD_append_right _ _ _ (natChars_ne_nil _)]
    have hmem := getLastD_mem (natChars clk.nowMs) 'Q' (natChars_ne_nil _)
    exact (decDigits_props _ (mem_natChars _ _ hmem)).2.2.2

/-- C3: for every template, data record and clock, the formatter output
contains none of the characters stripped by the sanitizer (the nine reserved
characters and the control range 0x00-0x1F), has no two consecutive spaces
and no three consecutive dashes, starts and ends with neither whitespace nor
a dot, and is never empty; when sanitization yields the empty string the
output is the timestamped fallback name `QBO_Document_<timestamp>`. -/
theorem C3_formatter_sanitized (format : List Char) (d : FData) (clk : Clock) :
    buildFilename format d clk ≠ [] ∧
    (∀ c ∈ buildFilename format d clk, illegalChar c = false) ∧
    ¬ ([' ', ' '] <:+: buildFilename format d clk) ∧
    ¬ (['-', '-', '-'] <:+: buildFilename format d clk) ∧
    wsDot ((buildFilename format d clk).headD 'Q') = false ∧
    wsDot ((buildFilename format d clk).getLastD 'Q') = false ∧
    (sanitize (substTokens format d clk) = [] →
      buildFilename format d clk = fallbackName clk) := by
  by_cases h0 : sanitize (substTokens format d clk) = []
  · have hbf : buildFilename format d clk = fallbackName clk := by
      unfold buildFilename
      simp [h0]
    rw [hbf]
    obtain ⟨a1, a2, a3, a4, a5, a6⟩ := fallback_props clk
    exact ⟨a1, a2, a3, a4, a5, a6, fun _ => rfl⟩
  · have hbf : buildFilename format d clk = sanitize (substTokens format d clk) := by
      unfold buildFilename
      simp [h0]
    have hsan : sanitize (substTokens format d clk)
        = trimWsDots (collapseDashes (collapseWs
            (stripIllegal (substTokens format d clk)))) := rfl
    have hdw : hasDoubleWs (collapseDashes (collapseWs
        (stripIllegal (substTokens format d clk)))) = false :=
      hasDoubleWs_collapseDashes _ (hasDoubleWs_collapseWs _)
    have htd : hasTripleDash (collapseDashes (collapseWs
        (stripIllegal (substTokens format d clk)))) = false :=
      hasTripleDash_collapseDashes _
    refine ⟨?_, ?_, ?_, ?_, ?_, ?_, fun hc => absurd hc h0⟩
    · rw [hbf]
      exact h0
    · intro c hmem
      rw [hbf, hsan] at hmem
      have hc3 := (trimWsDots_isInf _).sublist.subset hmem
      have hc2 := mem_collapseDashes _ c hc3
      rcases mem_collapseWs _ c hc2 with hsp | hc1
      · rw [hsp]
        decide
      · simpa using (List.mem_filter.mp hc1).2
    · intro hinf
      rw [hbf, hsan] at hinf
      have htrue := hasDoubleWs_of_infix _ ' ' ' ' (by decide) (by decide)
        (hinf.trans (trimWsDots_isInf _))
      rw [htrue] at hdw
      exact absurd hdw (by decide)
    · intro hinf
      rw [hbf, hsan] at hinf
      have htrue := hasTripleDash_of_infix _ (hinf.trans (trimWsDots_isInf _))
      rw [htrue] at htd
      exact absurd htd (by decide)
    · rw [hbf, hsan]
      rcases hcz : trimWsDots (collapseDashes (collapseWs
          (stripIllegal (substTokens format d clk)))) with _ | ⟨c, t⟩
      · exact absurd (by rw [hsan, hcz]) h0
      · rw [List.headD_cons]
        exact trimWsDots_head _ c t hcz
    · rw [hbf, hsan]
      exact trimWsDots_getLastD _ (by rw [← hsan]; exact h0)

/-- Witness for C3: a concrete evaluation of the membership guarantee and of
the empty-sanitization fallback (template made of reserved characters only). -/
theorem C3_witness :
    illegalChar 'a' = false ∧
    buildFilename "<>".data ⟨[], [], [], []⟩ ⟨2026, 2, 20, 7⟩
      = fallbackName ⟨2026, 2, 20, 7⟩ :=
  ⟨(C3_formatter_sanitized "a".data ⟨[], [], [], []⟩ ⟨2026, 2, 20, 7⟩).2.1 'a'
      (by simp +decide [buildFilename, sanitize, substTokens, replaceAll,
        formatDate, replaceFirst, stripIllegal, collapseWs, collapseDashes,
        trimWsDots, dropTrailing, natChars, natDigits, padTwo]),
   (C3_formatter_sanitized "<>".data ⟨[], [], [], []⟩ ⟨2026, 2, 20, 7⟩).2.2.2.2.2.2
      (by simp +decide [sanitize, substTokens, replaceAll, formatDate,
        replaceFirst, stripIllegal, collapseWs, collapseDashes, trimWsDots,
        dropTrailing, natChars, natDigits, padTwo])⟩

end Apex
